import Mathlib

/-!
# envbin: a shallow embedding of `cmd/envbin2.go`

The Go program is a fault-injection HTTP service.  This development embeds

* the `Settings` record and the six control handlers registered in `main`,
* the request pipeline `errorMiddleware → latencyMiddleware → bandwidthMiddleware → handler`,
* `slowResponseWriter` and its `Write` method (value receiver),
* `allocAndTouch` and the global `allocs` pool,
* the duty-cycle arithmetic of one `useCpu` worker period,

and proves properties of these definitions.

Conventions.  Go `int64` values are `Int`s kept in range by `wrapInt64`.  Go `float64`
values are the type `F64` below; arithmetic on them rounds to nearest, ties to even.
Stateful code is a function on an explicit `World`; calls into libraries
(`time.Sleep`, `flowrate`, `net/http`) append an `Event` to the world's trace.
-/

namespace Envbin

/-! ## Machine integers and durations -/

/-- Two's-complement wrap of an integer into the `int64` range. -/
def wrapInt64 (x : Int) : Int := (x + 2 ^ 63) % 2 ^ 64 - 2 ^ 63

/-- Largest `int64`, Go's `math.MaxInt64`. -/
def MaxInt64 : Int := 2 ^ 63 - 1

/-- Smallest `int64`. -/
def MinInt64 : Int := -(2 ^ 63)

/-- Go's `time.Millisecond`, in nanoseconds. -/
def Millisecond : Int := 1000000

/-- Go's `time.Second`, in nanoseconds. -/
def Second : Int := 1000000000

/-- Product of two `time.Duration` values: an `int64` multiplication, which wraps. -/
def mulDuration (a b : Int) : Int := wrapInt64 (a * b)

/-! ## float64 -/

/-- A Go `float64`: NaN, the two infinities, negative zero, or a finite value.
`fin 0` is positive zero.  Finite values produced by the operations below are
always representable in binary64. -/
inductive F64 where
  | nan
  | ninf
  | pinf
  | nzero
  | fin (q : ℚ)
  deriving DecidableEq

namespace F64

/-- The numeric value of a finite float; `0` for the non-finite ones. -/
def toRat : F64 → ℚ
  | fin q => q
  | _ => 0

/-- Go's `a < b` on `float64`: false whenever an operand is NaN, and the two zeros
compare equal. -/
def lt (a b : F64) : Bool :=
  match a, b with
  | nan, _ => false
  | _, nan => false
  | pinf, _ => false
  | _, ninf => false
  | ninf, _ => true
  | _, pinf => true
  | x, y => decide (x.toRat < y.toRat)

/-- Go's `a <= b` on `float64`. -/
def le (a b : F64) : Bool :=
  match a, b with
  | nan, _ => false
  | _, nan => false
  | ninf, _ => true
  | _, pinf => true
  | pinf, _ => false
  | _, ninf => false
  | x, y => decide (x.toRat ≤ y.toRat)

/-- The exponent of the binary64 spacing around `q`: values of magnitude in
`[2^k, 2^(k+1))` are spaced `2^(k-52)` apart, and below `2^(-1022)` the spacing is
that of the subnormals, `2^(-1074)`. -/
def quantum (q : ℚ) : ℤ := max (Int.log 2 |q| - 52) (-1074)

/-- Nearest integer, ties to the even one. -/
def roundHalfEven (x : ℚ) : ℤ :=
  let f := ⌊x⌋
  if x - f < 1 / 2 then f
  else if 1 / 2 < x - f then f + 1
  else if f % 2 = 0 then f else f + 1

/-- The multiple of the spacing nearest to `q`, ties to even: the binary64 rounding
of `q` before overflow is taken into account. -/
def roundQ (q : ℚ) : ℚ := roundHalfEven (q / 2 ^ quantum q) * 2 ^ quantum q

/-- Round the exact result `q` of an operation to a `float64`.  `neg` is the sign
of the exact result, which decides between the two zeros and the two infinities. -/
def round (neg : Bool) (q : ℚ) : F64 :=
  if 2 ^ 1024 ≤ |roundQ q| then (if neg then ninf else pinf)
  else if roundQ q = 0 then (if neg then nzero else fin 0)
  else fin (roundQ q)

/-- The sign bit (of a value that is not NaN). -/
def signbit : F64 → Bool
  | ninf => true
  | nzero => true
  | fin q => decide (q < 0)
  | _ => false

/-- Whether the value is one of the two zeros. -/
def isZero : F64 → Bool
  | nzero => true
  | fin q => decide (q = 0)
  | _ => false

/-- Whether the value is one of the two infinities. -/
def isInf : F64 → Bool
  | ninf => true
  | pinf => true
  | _ => false

/-- The infinity of the given sign. -/
def inf (neg : Bool) : F64 := if neg then ninf else pinf

/-- The zero of the given sign. -/
def zero (neg : Bool) : F64 := if neg then nzero else fin 0

/-- Go's conversion `float64(n)` of an integer. -/
def ofInt (n : Int) : F64 := round (decide (n < 0)) n

/-- Go's `a * b` on `float64`. -/
def mul (a b : F64) : F64 :=
  match a, b with
  | nan, _ => nan
  | _, nan => nan
  | x, y =>
    let neg := xor x.signbit y.signbit
    if x.isInf || y.isInf then
      (if x.isZero || y.isZero then nan else inf neg)
    else round neg (x.toRat * y.toRat)

/-- Go's `a / b` on `float64`. -/
def div (a b : F64) : F64 :=
  match a, b with
  | nan, _ => nan
  | _, nan => nan
  | x, y =>
    let neg := xor x.signbit y.signbit
    if x.isInf then (if y.isInf then nan else inf neg)
    else if y.isInf then zero neg
    else if y.isZero then (if x.isZero then nan else inf neg)
    else round neg (x.toRat / y.toRat)

/-- Go's `math.Min`, with its special cases: `Min(x, -Inf) = Min(-Inf, x) = -Inf`,
`Min(x, NaN) = Min(NaN, x) = NaN`, `Min(-0, ±0) = Min(±0, -0) = -0`. -/
def min (x y : F64) : F64 :=
  if x = ninf ∨ y = ninf then ninf
  else if x = nan ∨ y = nan then nan
  else if x.isZero && y.isZero then (if x.signbit then x else y)
  else if lt x y then x else y

/-- Go's conversion of a `float64` to `int64` (here `time.Duration(f)`): the fraction
is discarded.  For NaN, the infinities and values outside the `int64` range the language
leaves the result to the implementation; amd64 yields the smallest `int64`. -/
def toInt64 : F64 → Int
  | fin q =>
    let t : Int := if 0 ≤ q then ⌊q⌋ else ⌈q⌉
    if MinInt64 ≤ t ∧ t ≤ MaxInt64 then t else MinInt64
  | nzero => 0
  | _ => MinInt64

end F64

/-! ## Settings -/

/-- The `Settings` struct. -/
structure Settings where
  delay : Int
  bandwidth : Int
  errorRate : F64
  cpuUse : F64
  health : Bool
  liveness : Bool
  deriving DecidableEq

/-- The constructor `NewSettings`; `cpuUse` is left at Go's zero value. -/
def NewSettings : Settings :=
  { delay := 0
    bandwidth := MaxInt64
    errorRate := F64.fin 0
    cpuUse := F64.fin 0
    health := true
    liveness := true }

/-- A `*int64` pointing into the settings object (`&s.delay`, `&s.bandwidth`). -/
inductive Int64Ptr where
  | sDelay
  | sBandwidth
  deriving DecidableEq

/-- Dereference of a `*int64`. -/
def Int64Ptr.load : Int64Ptr → Settings → Int
  | .sDelay, s => s.delay
  | .sBandwidth, s => s.bandwidth

/-- A `*float64` pointing into the settings object (`&s.errorRate`, `&s.cpuUse`). -/
inductive Float64Ptr where
  | sErrorRate
  | sCpuUse
  deriving DecidableEq

/-- Dereference of a `*float64`. -/
def Float64Ptr.load : Float64Ptr → Settings → F64
  | .sErrorRate, s => s.errorRate
  | .sCpuUse, s => s.cpuUse

/-! ## Response writers, events and the world -/

/-- An `http.ResponseWriter` value.  `conn id flusher` is a writer handed out by
`net/http` (`flusher` tells whether it implements `http.Flusher`);
`slow rw fw rxbw bw` is the struct `slowResponseWriter{rw, fw, rxbw, bw}`, where
`fw` is the address of its `flowrate.Writer`. -/
inductive ResponseWriter where
  | conn (id : Nat) (flusher : Bool)
  | slow (rw : ResponseWriter) (fw : Nat) (rxbw : Int64Ptr) (bw : Int)
  deriving DecidableEq

/-- The struct `slowResponseWriter`. -/
structure slowResponseWriter where
  rw : ResponseWriter
  fw : Nat
  rxbw : Int64Ptr
  bw : Int
  deriving DecidableEq

/-- A `slowResponseWriter` used as an `http.ResponseWriter`. -/
def slowResponseWriter.toWriter (sr : slowResponseWriter) : ResponseWriter :=
  .slow sr.rw sr.fw sr.rxbw sr.bw

/-- An argument of a formatting verb. -/
inductive Arg where
  | int (i : Int)
  | float (f : F64)
  | bool (b : Bool)
  | err (text : String)
  deriving DecidableEq

/-- Bytes handed to a `Write` call: either a literal byte slice or the output of
`fmt.Fprintf` for a format string and its argument. -/
inductive Payload where
  | raw (b : List UInt8)
  | formatted (format : String) (arg : Arg)
  deriving DecidableEq

/-- Calls that leave the program. -/
inductive Event where
  | writeHeader (id : Nat) (statusCode : Int)
  | connWrite (id : Nat) (p : Payload)
  | flush (id : Nat)
  | sleep (ns : Int)
  | newWriter (fw : Nat) (rw : ResponseWriter) (limit : Int)
  | setLimit (fw : Nat) (limit : Int)
  | logPrintln (text : String) (v : Int)
  | limitedWrite (fw : Nat) (limit : Int) (p : Payload)
  deriving DecidableEq

/-- The state of the process: the settings object `s`, the `limit` field of every
`flowrate.Writer` allocated so far (indexed by address), the global `allocs`,
the stream of values `rand.Float64()` is going to return together with the
number already consumed, and the trace of library calls. -/
structure World where
  s : Settings
  limits : List Int
  allocs : List (List UInt8)
  rand : Nat → F64
  randPos : Nat
  trace : List Event

/-- Append one event to the trace. -/
def World.emit (σ : World) (e : Event) : World :=
  { σ with trace := σ.trace ++ [e] }

/-- How a call ends: it returns, it panics, or it never returns; the world is the
state reached. -/
inductive Outcome where
  | ret (σ : World)
  | panic (σ : World)
  | hang (σ : World)

/-- The world a call ends in. -/
def Outcome.world : Outcome → World
  | .ret σ => σ
  | .panic σ => σ
  | .hang σ => σ

/-- Sequencing: run `k` if the first call returned, propagate otherwise. -/
def Outcome.andThen (o : Outcome) (k : World → Outcome) : Outcome :=
  match o with
  | .ret σ => k σ
  | .panic σ => .panic σ
  | .hang σ => .hang σ

/-- An `*http.Request`: only the route variables `mux.Vars(r)` are used. -/
structure Request where
  vars : String → String

/-- An `http.Handler`, by its `ServeHTTP` method. -/
abbrev Handler := ResponseWriter → Request → World → Outcome

/-- The call `rand.Float64()`. -/
def randFloat64 (σ : World) : F64 × World :=
  (σ.rand σ.randPos, { σ with randPos := σ.randPos + 1 })

/-- The call `time.Sleep(d)`. -/
def timeSleep (d : Int) (σ : World) : World := σ.emit (.sleep d)

/-- The call `flowrate.NewWriter(rw, limit)`: allocates a limiter, returns its address. -/
def flowrateNewWriter (rw : ResponseWriter) (limit : Int) (σ : World) : Nat × World :=
  (σ.limits.length,
    { σ with limits := σ.limits ++ [limit],
             trace := σ.trace ++ [.newWriter σ.limits.length rw limit] })

/-- The call `fw.SetLimit(limit)`. -/
def flowrateSetLimit (fw : Nat) (limit : Int) (σ : World) : World :=
  { σ with limits := σ.limits.set fw limit,
           trace := σ.trace ++ [.setLimit fw limit] }

/-- The call `fw.Write(b)` on the limiter at address `fw`, built around a writer
whose `Write` method is `inner`.  The event records the limit in force when the
limiter takes over; the limiter then passes the bytes on to the writer it wraps.
The library may hand them over in several pieces: one `Write` of the whole payload
stands for them, which is exact for the one-byte writes of the status handler.  An
empty slice is not passed on at all. -/
def flowrateWrite (fw : Nat) (inner : Payload → World → Outcome) (p : Payload)
    (σ : World) : Outcome :=
  if p = .raw [] then .ret (σ.emit (.limitedWrite fw (σ.limits.getD fw 0) p))
  else inner p (σ.emit (.limitedWrite fw (σ.limits.getD fw 0) p))

/-- The type assertion `rw.(http.Flusher)` followed by `Flush()`: a
`slowResponseWriter` has no `Flush` method. -/
def flushWriter (rw : ResponseWriter) (σ : World) : Outcome :=
  match rw with
  | .conn id true => .ret (σ.emit (.flush id))
  | _ => .panic σ

/-- The constructor `newSlowResponseWriter`. -/
def newSlowResponseWriter (rw : ResponseWriter) (bandwidth : Int64Ptr) (σ : World) :
    slowResponseWriter × World :=
  let (fw, σ1) := flowrateNewWriter rw (bandwidth.load σ.s) σ
  ({ rw := rw, fw := fw, rxbw := bandwidth, bw := bandwidth.load σ1.s }, σ1)

/-- The method `slowResponseWriter.Write`; `inner` is the `Write` method of the
wrapped writer `sr.rw`, around which the limiter `sr.fw` was built.  The receiver
is passed by value, so the assignment `sr.bw = *sr.rxbw` updates the local copy
only: the (new) receiver is returned for inspection, but the caller's struct is
untouched.  The flush follows once the limiter's `Write` has returned. -/
def slowResponseWriter.Write (inner : Payload → World → Outcome) (sr : slowResponseWriter)
    (b : Payload) (σ : World) : slowResponseWriter × Outcome :=
  let (sr1, σ1) :=
    if sr.bw ≠ sr.rxbw.load σ.s then
      let sr1 := { sr with bw := sr.rxbw.load σ.s }
      (sr1, (flowrateSetLimit sr1.fw sr1.bw σ).emit
              (.logPrintln "adjusted writer bw to " sr1.bw))
    else (sr, σ)
  (sr1, (flowrateWrite sr1.fw inner b σ1).andThen (flushWriter sr1.rw))

/-- Method `WriteHeader` of an `http.ResponseWriter`; `slowResponseWriter` forwards
to the writer it wraps. -/
def ResponseWriter.WriteHeader : ResponseWriter → Int → World → World
  | .conn id _, statusCode, σ => σ.emit (.writeHeader id statusCode)
  | .slow rw _ _ _, statusCode, σ => rw.WriteHeader statusCode σ

/-- Method `Write` of an `http.ResponseWriter`.  For a `slowResponseWriter` the
interface holds the struct, and each call runs the method on a fresh copy. -/
def ResponseWriter.Write : ResponseWriter → Payload → World → Outcome
  | .conn id _, b, σ => .ret (σ.emit (.connWrite id b))
  | .slow rw fw rxbw bw, b, σ =>
      (slowResponseWriter.Write (fun p τ => rw.Write p τ)
        { rw := rw, fw := fw, rxbw := rxbw, bw := bw } b σ).2

/-- The call `fmt.Fprintf(w, format, arg)`. -/
def Fprintf (w : ResponseWriter) (format : String) (arg : Arg) (σ : World) : Outcome :=
  w.Write (.formatted format arg) σ

/-! ## The middleware -/

/-- The function `latencyMiddleware`. -/
def latencyMiddleware (delay : Int64Ptr) (next : Handler) : Handler :=
  fun w r σ =>
    next w r (timeSleep (mulDuration (delay.load σ.s) Second) σ)

/-- The function `bandwidthMiddleware`. -/
def bandwidthMiddleware (bandwidth : Int64Ptr) (next : Handler) : Handler :=
  fun w r σ =>
    let (sr, σ1) := newSlowResponseWriter w bandwidth σ
    next sr.toWriter r σ1

/-- The function `errorMiddleware`. -/
def errorMiddleware (rate : Float64Ptr) (next : Handler) : Handler :=
  fun w r σ =>
    let (x, σ1) := randFloat64 σ
    if F64.lt (rate.load σ1.s) x then
      next w r σ1
    else
      .ret (w.WriteHeader 500 σ1)

/-- The handler registered for `/` in `main`. -/
def rootPipeline (terminal : Handler) : Handler :=
  errorMiddleware .sErrorRate
    (latencyMiddleware .sDelay
      (bandwidthMiddleware .sBandwidth terminal))

/-! ## The control handlers of `main` -/

/-- The three `strconv` parsers the handlers call.  They belong to the Go standard
library; a handler only looks at whether the parse failed (with which error text)
or which value it produced. -/
structure Strconv where
  ParseInt : String → Nat → Nat → Except String Int
  ParseFloat : String → Nat → Except String F64
  ParseBool : String → Except String Bool

/-- The handler of `POST /api/delay`. -/
def delayHandler (sc : Strconv) : Handler :=
  fun w r σ =>
    match sc.ParseInt (r.vars "value") 0 64 with
    | .error err => Fprintf w "%v\n" (.err err) σ
    | .ok d =>
      Fprintf w "Delay set to %v\n" (.int d) { σ with s := { σ.s with delay := d } }

/-- The handler of `POST /api/bandwidth`. -/
def bandwidthHandler (sc : Strconv) : Handler :=
  fun w r σ =>
    match sc.ParseInt (r.vars "value") 0 64 with
    | .error err => Fprintf w "%v\n" (.err err) σ
    | .ok b =>
      Fprintf w "Bandwidth set to %v bytes/s\n" (.int b)
        { σ with s := { σ.s with bandwidth := b } }

/-- The handler of `POST /api/errorrate`. -/
def errorrateHandler (sc : Strconv) : Handler :=
  fun w r σ =>
    match sc.ParseFloat (r.vars "value") 0 with
    | .error err => Fprintf w "%v\n" (.err err) σ
    | .ok e =>
      Fprintf w "Error rate set to %v\n" (.float e)
        { σ with s := { σ.s with errorRate := e } }

/-- The handler of `POST /api/cpu`. -/
def cpuHandler (sc : Strconv) : Handler :=
  fun w r σ =>
    match sc.ParseFloat (r.vars "value") 0 with
    | .error err => Fprintf w "%v\n" (.err err) σ
    | .ok c =>
      Fprintf w "CPU usage set to %v\n" (.float c) { σ with s := { σ.s with cpuUse := c } }

/-- The handler of `POST /api/health`. -/
def healthHandler (sc : Strconv) : Handler :=
  fun w r σ =>
    match sc.ParseBool (r.vars "value") with
    | .error err => Fprintf w "%v\n" (.err err) σ
    | .ok h =>
      Fprintf w "Health check set to %v\n" (.bool h) { σ with s := { σ.s with health := h } }

/-- The handler of `POST /api/liveness` (its message is the one of `/api/health`). -/
def livenessHandler (sc : Strconv) : Handler :=
  fun w r σ =>
    match sc.ParseBool (r.vars "value") with
    | .error err => Fprintf w "%v\n" (.err err) σ
    | .ok l =>
      Fprintf w "Health check set to %v\n" (.bool l)
        { σ with s := { σ.s with liveness := l } }

/-- The six control operations that write a `Settings` field. -/
inductive Control where
  | delay
  | bandwidth
  | errorrate
  | cpu
  | health
  | liveness
  deriving DecidableEq

/-- The handler `main` registers for each control operation. -/
def Control.handler (sc : Strconv) : Control → Handler
  | .delay => delayHandler sc
  | .bandwidth => bandwidthHandler sc
  | .errorrate => errorrateHandler sc
  | .cpu => cpuHandler sc
  | .health => healthHandler sc
  | .liveness => livenessHandler sc

/-- The parse a control operation applies to its input, with the result wrapped
as a formatting argument. -/
def Control.parse (sc : Strconv) : Control → String → Except String Arg
  | .delay, v => (sc.ParseInt v 0 64).map Arg.int
  | .bandwidth, v => (sc.ParseInt v 0 64).map Arg.int
  | .errorrate, v => (sc.ParseFloat v 0).map Arg.float
  | .cpu, v => (sc.ParseFloat v 0).map Arg.float
  | .health, v => (sc.ParseBool v).map Arg.bool
  | .liveness, v => (sc.ParseBool v).map Arg.bool

/-- The `Settings` field a control operation owns. -/
def Control.field : Control → Settings → Arg
  | .delay, s => .int s.delay
  | .bandwidth, s => .int s.bandwidth
  | .errorrate, s => .float s.errorRate
  | .cpu, s => .float s.cpuUse
  | .health, s => .bool s.health
  | .liveness, s => .bool s.liveness

/-- The format string of a control operation's success message. -/
def Control.message : Control → String
  | .delay => "Delay set to %v\n"
  | .bandwidth => "Bandwidth set to %v bytes/s\n"
  | .errorrate => "Error rate set to %v\n"
  | .cpu => "CPU usage set to %v\n"
  | .health => "Health check set to %v\n"
  | .liveness => "Health check set to %v\n"

/-! ## The allocation pool -/

/-- Go's `make([]byte, n, n)`: a zeroed slice, or a panic (`none`) when the length is
negative or above `maxAlloc`, the largest size the Go runtime agrees to allocate
(`2^48` bytes on 64-bit Linux). -/
def makeBytes (maxAlloc : Int) (n : Int) : Option (List UInt8) :=
  if n < 0 ∨ maxAlloc < n then none else some (List.replicate n.toNat 0)

/-- How the page-touching loop ends. -/
inductive TouchResult where
  | done (bs : List UInt8)
  | indexPanic
  | noFuel
  deriving DecidableEq

/-- The loop `for i = 0; i < bytes; i += int64(os.Getpagesize()) { bs[i] = 69 }`
started at index `i`, for at most `fuel` evaluations of the loop condition.  The
increment is an `int64` addition; an index outside the slice panics. -/
def touchLoop (pageSize bytes : Int) : Nat → Int → List UInt8 → TouchResult
  | 0, _, _ => .noFuel
  | fuel + 1, i, bs =>
    if i < bytes then
      if 0 ≤ i ∧ i < bs.length then
        touchLoop pageSize bytes fuel (wrapInt64 (i + pageSize)) (bs.set i.toNat 69)
      else .indexPanic
    else .done bs

/-- The function `allocAndTouch`; `pageSize` is the value of `os.Getpagesize()`.
With a positive page size the loop tests its condition at most `bytes + 1` times,
which is the fuel given here; the loop of a non-positive page size does not end. -/
def allocAndTouch (maxAlloc pageSize : Int) (bytes : Int) (σ : World) : Outcome :=
  match makeBytes maxAlloc bytes with
  | none => .panic σ
  | some bs =>
    match touchLoop pageSize bytes (bytes.toNat + 1) 0 bs with
    | .done bs1 => .ret { σ with allocs := σ.allocs ++ [bs1] }
    | .indexPanic => .panic σ
    | .noFuel => .hang σ

/-- The handler of `POST /api/allocate`. -/
def allocateHandler (sc : Strconv) (maxAlloc pageSize : Int) : Handler :=
  fun w r σ =>
    match sc.ParseInt (r.vars "value") 0 64 with
    | .error err => Fprintf w "%v\n" (.err err) σ
    | .ok a =>
      (Fprintf w "Allocating %d bytes\n" (.int a) σ).andThen
        (allocAndTouch maxAlloc pageSize a)

/-- The calls `allocAndTouch(s1)`, ..., `allocAndTouch(sn)` one after the other. -/
def allocAll (maxAlloc pageSize : Int) : List Int → World → Outcome
  | [], σ => .ret σ
  | b :: rest, σ =>
    (allocAndTouch maxAlloc pageSize b σ).andThen (allocAll maxAlloc pageSize rest)

/-! ## One period of a `useCpu` worker -/

/-- The value `dutyCycle := math.Min(*rate, cpus) / cpus` with
`cpus := float64(runtime.NumCPU())`. -/
def useCpu.dutyCycle (rate : F64) (numCPU : Int) : F64 :=
  let cpus := F64.ofInt numCPU
  F64.div (F64.min rate cpus) cpus

/-- The duration `time.Duration(dutyCycle*1000) * time.Millisecond` given to
`time.After`, in nanoseconds. -/
def useCpu.highTimer (rate : F64) (numCPU : Int) : Int :=
  mulDuration (F64.toInt64 (F64.mul (useCpu.dutyCycle rate numCPU) (F64.fin 1000))) Millisecond

/-! ## The terminal handler and a response being streamed -/

/-- The loop `for i := 0; i < len(bs); i++ { w.Write(bs[i : i+1]) }`. -/
def writeEach (w : ResponseWriter) : List UInt8 → World → Outcome
  | [], σ => .ret σ
  | c :: cs, σ => (w.Write (.raw [c]) σ).andThen (writeEach w cs)

/-- The innermost handler of `/`: `render` stands for the status page produced from
the template and the host data, which is then written one byte at a time. -/
def statusHandler (render : World → List UInt8) : Handler :=
  fun w _ σ => writeEach w (render σ) σ

/-- What happens to one response while it is being written: the operator changes
the bandwidth cap (the assignment `s.bandwidth = b` of the control handler), or the
handler calls `Write` on its writer. -/
inductive StreamStep where
  | setCap (b : Int)
  | write (p : Payload)
  deriving DecidableEq

/-- Run the steps in order against the writer the handler holds. -/
def runStream (w : ResponseWriter) : List StreamStep → World → Outcome
  | [], σ => .ret σ
  | .setCap b :: rest, σ => runStream w rest { σ with s := { σ.s with bandwidth := b } }
  | .write p :: rest, σ => (w.Write p σ).andThen (runStream w rest)

/-- The connection a writer finally writes to. -/
def ResponseWriter.connId : ResponseWriter → Nat
  | .conn id _ => id
  | .slow rw _ _ _ => rw.connId

/-- Requests served one after the other by the same handler. -/
def serveAll (h : Handler) : List (ResponseWriter × Request) → World → Outcome
  | [], σ => .ret σ
  | (w, r) :: rest, σ => (h w r σ).andThen (serveAll h rest)

/-- The process right after `main` has built its settings: no limiter allocated,
`allocs` empty, nothing drawn from the random source yet. -/
def World.start (s : Settings) (rand : Nat → F64) : World :=
  { s := s, limits := [], allocs := [], rand := rand, randPos := 0, trace := [] }

/-- A sample of `rand.Float64()`: a finite value in the half-open interval `[0, 1)`. -/
def F64.InUnit (x : F64) : Prop := ∃ q : ℚ, x = F64.fin q ∧ 0 ≤ q ∧ q < 1

/-- A request whose route variables are all empty. -/
def Request.empty : Request := { vars := fun _ => "" }

/-- A request with the given text in its route variable `value`. -/
def Request.withValue (v : String) : Request :=
  { vars := fun k => if k = "value" then v else "" }

/-- A small stand-in for `strconv`, for examples: it knows the integer `42`, the
float `0.5` and the booleans `t` and `f`, and reports a syntax error otherwise. -/
def Strconv.sample : Strconv :=
  { ParseInt := fun v _ _ => if v = "42" then .ok 42 else .error "invalid syntax"
    ParseFloat := fun v _ => if v = "0.5" then .ok (F64.fin (1 / 2)) else .error "invalid syntax"
    ParseBool := fun v =>
      if v = "t" then .ok true else if v = "f" then .ok false else .error "invalid syntax" }

/-! # Theorems -/

/-! ## Writers -/

theorem WriteHeader_eq_emit (w : ResponseWriter) (statusCode : Int) (σ : World) :
    w.WriteHeader statusCode σ = σ.emit (.writeHeader w.connId statusCode) := by
  induction w with
  | conn id f => rfl
  | slow rw fw rxbw bw ih => simpa [ResponseWriter.WriteHeader, ResponseWriter.connId] using ih

theorem F64.lt_one_of_inUnit {x : F64} (hx : x.InUnit) : F64.lt (F64.fin 1) x = false := by
  obtain ⟨q, rfl, _, hq⟩ := hx
  simp [F64.lt, F64.toRat, hq.le]

theorem errorMiddleware_reject (rate : Float64Ptr) (next : Handler) (w : ResponseWriter)
    (r : Request) (σ : World) (h : F64.lt (rate.load σ.s) (σ.rand σ.randPos) = false) :
    errorMiddleware rate next w r σ =
      .ret { σ with randPos := σ.randPos + 1,
                    trace := σ.trace ++ [.writeHeader w.connId 500] } := by
  simp [errorMiddleware, randFloat64, h, WriteHeader_eq_emit, World.emit]

theorem errorMiddleware_forward (rate : Float64Ptr) (next : Handler) (w : ResponseWriter)
    (r : Request) (σ : World) (h : F64.lt (rate.load σ.s) (σ.rand σ.randPos) = true) :
    errorMiddleware rate next w r σ = next w r { σ with randPos := σ.randPos + 1 } := by
  simp [errorMiddleware, randFloat64, h]

theorem mulDuration_second_exact (d : Int) (h0 : -9223372036 ≤ d) (h1 : d ≤ 9223372036) :
    mulDuration d Second = d * 1000000000 := by
  simp only [mulDuration, wrapInt64, Second]
  norm_num
  omega

theorem mulDuration_second_reaches (d : Int) (h0 : 0 ≤ d) (h1 : d ≤ MaxInt64) :
    d * 1000000000 ≤ mulDuration d Second ↔ d ≤ 9223372036 := by
  simp only [mulDuration, wrapInt64, Second, MaxInt64] at *
  norm_num at *
  omega

theorem latencyMiddleware_eq (delay : Int64Ptr) (next : Handler) (w : ResponseWriter)
    (r : Request) (σ : World) :
    latencyMiddleware delay next w r σ =
      next w r { σ with trace := σ.trace ++ [.sleep (mulDuration (delay.load σ.s) Second)] } :=
  rfl

theorem rootPipeline_forward_eq (terminal : Handler) (w : ResponseWriter) (r : Request)
    (σ : World) (hfwd : F64.lt σ.s.errorRate (σ.rand σ.randPos) = true) :
    rootPipeline terminal w r σ =
      terminal (.slow w σ.limits.length .sBandwidth σ.s.bandwidth) r
        { s := σ.s, limits := σ.limits ++ [σ.s.bandwidth], allocs := σ.allocs,
          rand := σ.rand, randPos := σ.randPos + 1,
          trace := σ.trace ++ [.sleep (mulDuration σ.s.delay Second),
                               .newWriter σ.limits.length w σ.s.bandwidth] } := by
  unfold rootPipeline
  rw [errorMiddleware_forward _ _ _ _ _ (by simpa [Float64Ptr.load] using hfwd)]
  simp [latencyMiddleware, bandwidthMiddleware, newSlowResponseWriter, flowrateNewWriter,
    timeSleep, World.emit, Int64Ptr.load, slowResponseWriter.toWriter]

/-! ## The pipeline -/

/-- C1: when the error-injection stage rejects a request (the test
`*rate < rand.Float64()` is false), whatever the delay and the bandwidth cap, the
pipeline returns after one `WriteHeader(500)` on the connection of the original
writer: the trace gains that single event (no sleep), no limiter is allocated, the
settings are untouched and the result does not depend on the terminal handler. -/
theorem rootPipeline_rejected (terminal : Handler) (w : ResponseWriter) (r : Request)
    (σ : World) (hrej : F64.lt σ.s.errorRate (σ.rand σ.randPos) = false) :
    rootPipeline terminal w r σ =
      .ret { s := σ.s, limits := σ.limits, allocs := σ.allocs, rand := σ.rand,
             randPos := σ.randPos + 1,
             trace := σ.trace ++ [.writeHeader w.connId 500] } := by
  unfold rootPipeline
  rw [errorMiddleware_reject _ _ _ _ _ (by simpa [Float64Ptr.load] using hrej)]

/-- C1, at a concrete input: error rate 1, delay 10 s, sample 1/2. -/
theorem rootPipeline_rejected_witness :
    rootPipeline (statusHandler (fun _ => [104, 105])) (.conn 7 true) Request.empty
        (World.start { NewSettings with errorRate := F64.fin 1, delay := 10 }
          (fun _ => F64.fin (1 / 2))) =
      .ret { s := { NewSettings with errorRate := F64.fin 1, delay := 10 },
             limits := [], allocs := [], rand := fun _ => F64.fin (1 / 2),
             randPos := 1, trace := [.writeHeader 7 500] } :=
  rootPipeline_rejected _ _ _ _ (by simp [World.start, F64.lt, F64.toRat]; norm_num)

/-- C2, at the failing input: with the default error rate `0.0` and the sample
`0.0`, the test `0.0 < 0.0` is false and the request is answered with status 500
instead of being forwarded. -/
theorem errorMiddleware_rate_zero_sample_zero (next : Handler) :
    errorMiddleware .sErrorRate next (.conn 7 true) Request.empty
        (World.start NewSettings (fun _ => F64.fin 0)) =
      .ret { s := NewSettings, limits := [], allocs := [], rand := fun _ => F64.fin 0,
             randPos := 1, trace := [.writeHeader 7 500] } := by
  rw [errorMiddleware_reject _ _ _ _ _
    (by simp [World.start, NewSettings, Float64Ptr.load, F64.lt, F64.toRat])]
  rfl

/-- C3: with `errorRate = 1.0` and every sample of the random source in `[0, 1)`,
each of the `N` requests served is answered by one `WriteHeader(500)` and the next
stage is never invoked: the run returns, one sample is consumed per request, and
the trace gains exactly the `N` status-500 events, in order. -/
theorem errorMiddleware_rate_one (next : Handler) (reqs : List (ResponseWriter × Request))
    (σ : World) (hrate : σ.s.errorRate = F64.fin 1) (hrand : ∀ i, (σ.rand i).InUnit) :
    serveAll (errorMiddleware .sErrorRate next) reqs σ =
      .ret { s := σ.s, limits := σ.limits, allocs := σ.allocs, rand := σ.rand,
             randPos := σ.randPos + reqs.length,
             trace := σ.trace ++ reqs.map (fun q => Event.writeHeader q.1.connId 500) } := by
  induction reqs generalizing σ with
  | nil => simp [serveAll]
  | cons q rest ih =>
    obtain ⟨w, r⟩ := q
    have h1 : F64.lt (Float64Ptr.sErrorRate.load σ.s) (σ.rand σ.randPos) = false := by
      simpa [Float64Ptr.load, hrate] using F64.lt_one_of_inUnit (hrand σ.randPos)
    rw [serveAll, errorMiddleware_reject _ _ _ _ _ h1, Outcome.andThen]
    rw [ih { σ with randPos := σ.randPos + 1,
                    trace := σ.trace ++ [.writeHeader w.connId 500] } hrate hrand]
    simp [Nat.add_assoc, Nat.add_comm 1]

/-- C3, at a concrete input: two requests, every sample equal to 1/2. -/
theorem errorMiddleware_rate_one_witness :
    serveAll (errorMiddleware .sErrorRate (statusHandler (fun _ => [104, 105])))
        [(.conn 1 true, Request.empty), (.conn 2 true, Request.empty)]
        (World.start { NewSettings with errorRate := F64.fin 1 } (fun _ => F64.fin (1 / 2))) =
      .ret { s := { NewSettings with errorRate := F64.fin 1 }, limits := [], allocs := [],
             rand := fun _ => F64.fin (1 / 2), randPos := 0 + 2,
             trace := [] ++ [.writeHeader 1 500, .writeHeader 2 500] } :=
  errorMiddleware_rate_one _ _ _ rfl (fun _ => ⟨1 / 2, rfl, by norm_num, by norm_num⟩)

/-- C6 fails as worded for large delays: with `delay = 9223372037`, a value
`POST /api/delay` accepts, a forwarded request makes the pipeline call `time.Sleep`
with `-9223372036709551616` ns, which is not a sleep of 9223372037 seconds; the
limiter and the terminal handler follow as usual. -/
theorem rootPipeline_sleep_wraps :
    rootPipeline (fun _ _ τ => .ret τ) (.conn 7 true) Request.empty
        (World.start { NewSettings with delay := 9223372037 } (fun _ => F64.fin (1 / 2))) =
      .ret { s := { NewSettings with delay := 9223372037 }, limits := [MaxInt64],
             allocs := [], rand := fun _ => F64.fin (1 / 2), randPos := 1,
             trace := [.sleep (-9223372036709551616),
                       .newWriter 0 (.conn 7 true) MaxInt64] } ∧
    ¬ ((-9223372036709551616 : Int) = 9223372037 * 1000000000) := by
  refine ⟨?_, by decide⟩
  rw [rootPipeline_forward_eq _ _ _ _ (by simp [World.start, NewSettings, F64.lt, F64.toRat])]
  have h : mulDuration 9223372037 Second = -9223372036709551616 := by decide
  simp [World.start, NewSettings, h]

/-- C6, amended: when the error-injection stage forwards a request, the pipeline
calls `time.Sleep` once with `time.Duration(delay) * time.Second` for the delay
read at that moment, then allocates one limiter with the bandwidth cap read from
the settings and wraps the original writer in a `slowResponseWriter` pointing at
`s.bandwidth`, then invokes the terminal handler once, on that wrapper; and for
`-9223372036 ≤ delay ≤ 9223372036` the sleep is one of exactly `delay` seconds. -/
theorem rootPipeline_forwarded (terminal : Handler) (w : ResponseWriter) (r : Request)
    (σ : World) (hfwd : F64.lt σ.s.errorRate (σ.rand σ.randPos) = true) :
    rootPipeline terminal w r σ =
      terminal (.slow w σ.limits.length .sBandwidth σ.s.bandwidth) r
        { s := σ.s, limits := σ.limits ++ [σ.s.bandwidth], allocs := σ.allocs,
          rand := σ.rand, randPos := σ.randPos + 1,
          trace := σ.trace ++ [.sleep (mulDuration σ.s.delay Second),
                               .newWriter σ.limits.length w σ.s.bandwidth] } ∧
    (-9223372036 ≤ σ.s.delay → σ.s.delay ≤ 9223372036 →
      rootPipeline terminal w r σ =
        terminal (.slow w σ.limits.length .sBandwidth σ.s.bandwidth) r
          { s := σ.s, limits := σ.limits ++ [σ.s.bandwidth], allocs := σ.allocs,
            rand := σ.rand, randPos := σ.randPos + 1,
            trace := σ.trace ++ [.sleep (σ.s.delay * 1000000000),
                                 .newWriter σ.limits.length w σ.s.bandwidth] }) := by
  refine ⟨rootPipeline_forward_eq terminal w r σ hfwd, fun h0 h1 => ?_⟩
  rw [rootPipeline_forward_eq terminal w r σ hfwd, mulDuration_second_exact _ h0 h1]

/-- C6 amended, at a concrete input: default error rate, delay 3 s, cap 1000,
sample 1/2. -/
theorem rootPipeline_forwarded_witness :
    rootPipeline (statusHandler (fun _ => [104])) (.conn 7 true) Request.empty
        (World.start { NewSettings with delay := 3, bandwidth := 1000 }
          (fun _ => F64.fin (1 / 2))) =
      statusHandler (fun _ => [104]) (.slow (.conn 7 true) 0 .sBandwidth 1000) Request.empty
        { s := { NewSettings with delay := 3, bandwidth := 1000 },
          limits := [] ++ [1000], allocs := [], rand := fun _ => F64.fin (1 / 2),
          randPos := 0 + 1,
          trace := [] ++ [.sleep ((3 : Int) * 1000000000),
                          .newWriter 0 (.conn 7 true) 1000] } :=
  (rootPipeline_forwarded (statusHandler (fun _ => [104])) (.conn 7 true) Request.empty
    (World.start { NewSettings with delay := 3, bandwidth := 1000 }
      (fun _ => F64.fin (1 / 2)))
    (by simp [World.start, NewSettings, F64.lt, F64.toRat])).2 (by decide) (by decide)

/-! ## Control handlers -/

theorem flushWriter_settings (rw : ResponseWriter) (σ : World) :
    (flushWriter rw σ).world.s = σ.s := by
  unfold flushWriter
  split <;> rfl

theorem andThen_settings (o : Outcome) (k : World → Outcome)
    (hk : ∀ τ, (k τ).world.s = τ.s) : (o.andThen k).world.s = o.world.s := by
  cases o with
  | ret τ => exact hk τ
  | panic τ => rfl
  | hang τ => rfl

theorem flowrateWrite_settings (fw : Nat) (inner : Payload → World → Outcome) (p : Payload)
    (σ : World) (hinner : ∀ q τ, (inner q τ).world.s = τ.s) :
    (flowrateWrite fw inner p σ).world.s = σ.s := by
  unfold flowrateWrite
  split
  · rfl
  · rw [hinner]; rfl

theorem Write_settings (w : ResponseWriter) (p : Payload) (σ : World) :
    (w.Write p σ).world.s = σ.s := by
  induction w generalizing p σ with
  | conn id f => rfl
  | slow rw fw rxbw bw ih =>
    simp only [ResponseWriter.Write, slowResponseWriter.Write]
    split
    · rw [andThen_settings _ _ (flushWriter_settings rw),
        flowrateWrite_settings _ _ _ _ (fun q τ => ih q τ)]
      rfl
    · rw [andThen_settings _ _ (flushWriter_settings rw),
        flowrateWrite_settings _ _ _ _ (fun q τ => ih q τ)]

theorem Fprintf_conn (id : Nat) (f : Bool) (format : String) (arg : Arg) (σ : World) :
    Fprintf (.conn id f) format arg σ = .ret (σ.emit (.connWrite id (.formatted format arg))) :=
  rfl

/-- C7: for each of the six control operations, when the parse of the input fails
with error `err`, the handler does nothing but `fmt.Fprintf(w, "%v\n", err)` in the
unchanged world: all of `Settings` is as before the call, and on a connection
writer the only event is the write of the error text. -/
theorem control_parse_error (sc : Strconv) (c : Control) (w : ResponseWriter) (r : Request)
    (σ : World) (err : String) (h : c.parse sc (r.vars "value") = .error err) :
    c.handler sc w r σ = Fprintf w "%v\n" (.err err) σ ∧
    (c.handler sc w r σ).world.s = σ.s ∧
    (∀ id f, w = .conn id f →
      c.handler sc w r σ = .ret { σ with
        trace := σ.trace ++ [.connWrite id (.formatted "%v\n" (.err err))] }) := by
  have key : c.handler sc w r σ = Fprintf w "%v\n" (.err err) σ := by
    cases c <;> simp only [Control.parse] at h <;>
      simp only [Control.handler, delayHandler, bandwidthHandler, errorrateHandler,
        cpuHandler, healthHandler, livenessHandler] <;>
      split <;> simp_all [Except.map]
  refine ⟨key, ?_, ?_⟩
  · rw [key]; exact Write_settings _ _ _
  · rintro id f rfl
    rw [key]; rfl

/-- C7, at a concrete input: `POST /api/delay?value=abc` against a delay of 5 s. -/
theorem control_parse_error_witness :
    Control.delay.handler Strconv.sample (.conn 3 true) (Request.withValue "abc")
        (World.start { NewSettings with delay := 5 } (fun _ => F64.fin 0)) =
      Fprintf (.conn 3 true) "%v\n" (.err "invalid syntax")
        (World.start { NewSettings with delay := 5 } (fun _ => F64.fin 0)) ∧
    (Control.delay.handler Strconv.sample (.conn 3 true) (Request.withValue "abc")
        (World.start { NewSettings with delay := 5 } (fun _ => F64.fin 0))).world.s =
      { NewSettings with delay := 5 } :=
  have h := control_parse_error Strconv.sample .delay (.conn 3 true) (Request.withValue "abc")
    (World.start { NewSettings with delay := 5 } (fun _ => F64.fin 0)) "invalid syntax"
    (by simp [Control.parse, Strconv.sample, Request.withValue, Except.map])
  ⟨h.1, h.2.1⟩

/-- C8: for each of the six control operations, when the input parses to `v`, the
handler stores `v` in the operation's own field, leaves the five other fields as
they were, and answers with the operation's message formatted with `v`; on a
connection writer that write is the only event. -/
theorem control_parse_ok (sc : Strconv) (c : Control) (w : ResponseWriter) (r : Request)
    (σ : World) (v : Arg) (h : c.parse sc (r.vars "value") = .ok v) :
    ∃ s1 : Settings,
      c.field s1 = v ∧
      (∀ c2 : Control, c2 ≠ c → c2.field s1 = c2.field σ.s) ∧
      c.handler sc w r σ = Fprintf w c.message v { σ with s := s1 } ∧
      (c.handler sc w r σ).world.s = s1 ∧
      (∀ id f, w = .conn id f →
        c.handler sc w r σ = .ret { σ with
          s := s1, trace := σ.trace ++ [.connWrite id (.formatted c.message v)] }) := by
  have key : ∃ s1 : Settings, c.field s1 = v ∧
      (∀ c2 : Control, c2 ≠ c → c2.field s1 = c2.field σ.s) ∧
      c.handler sc w r σ = Fprintf w c.message v { σ with s := s1 } := by
    cases c <;> simp only [Control.parse] at h
    · cases hp : sc.ParseInt (r.vars "value") 0 64 with
      | error e => simp [hp, Except.map] at h
      | ok d =>
        simp only [hp, Except.map, Except.ok.injEq] at h
        subst h
        refine ⟨{ σ.s with delay := d }, rfl, ?_, ?_⟩
        · intro c2 hc; cases c2 <;> first | rfl | exact absurd rfl hc
        · simp [Control.handler, delayHandler, hp, Control.message]
    · cases hp : sc.ParseInt (r.vars "value") 0 64 with
      | error e => simp [hp, Except.map] at h
      | ok d =>
        simp only [hp, Except.map, Except.ok.injEq] at h
        subst h
        refine ⟨{ σ.s with bandwidth := d }, rfl, ?_, ?_⟩
        · intro c2 hc; cases c2 <;> first | rfl | exact absurd rfl hc
        · simp [Control.handler, bandwidthHandler, hp, Control.message]
    · cases hp : sc.ParseFloat (r.vars "value") 0 with
      | error e => simp [hp, Except.map] at h
      | ok d =>
        simp only [hp, Except.map, Except.ok.injEq] at h
        subst h
        refine ⟨{ σ.s with errorRate := d }, rfl, ?_, ?_⟩
        · intro c2 hc; cases c2 <;> first | rfl | exact absurd rfl hc
        · simp [Control.handler, errorrateHandler, hp, Control.message]
    · cases hp : sc.ParseFloat (r.vars "value") 0 with
      | error e => simp [hp, Except.map] at h
      | ok d =>
        simp only [hp, Except.map, Except.ok.injEq] at h
        subst h
        refine ⟨{ σ.s with cpuUse := d }, rfl, ?_, ?_⟩
        · intro c2 hc; cases c2 <;> first | rfl | exact absurd rfl hc
        · simp [Control.handler, cpuHandler, hp, Control.message]
    · cases hp : sc.ParseBool (r.vars "value") with
      | error e => simp [hp, Except.map] at h
      | ok d =>
        simp only [hp, Except.map, Except.ok.injEq] at h
        subst h
        refine ⟨{ σ.s with health := d }, rfl, ?_, ?_⟩
        · intro c2 hc; cases c2 <;> first | rfl | exact absurd rfl hc
        · simp [Control.handler, healthHandler, hp, Control.message]
    · cases hp : sc.ParseBool (r.vars "value") with
      | error e => simp [hp, Except.map] at h
      | ok d =>
        simp only [hp, Except.map, Except.ok.injEq] at h
        subst h
        refine ⟨{ σ.s with liveness := d }, rfl, ?_, ?_⟩
        · intro c2 hc; cases c2 <;> first | rfl | exact absurd rfl hc
        · simp [Control.handler, livenessHandler, hp, Control.message]
  obtain ⟨s1, h1, h2, h3⟩ := key
  refine ⟨s1, h1, h2, h3, ?_, ?_⟩
  · rw [h3]; exact Write_settings _ _ _
  · rintro id f rfl
    rw [h3]; rfl

/-- C8, at a concrete input: `POST /api/bandwidth?value=42`. -/
theorem control_parse_ok_witness :
    ∃ s1 : Settings,
      Control.bandwidth.field s1 = .int 42 ∧
      (∀ c2 : Control, c2 ≠ .bandwidth → c2.field s1 = c2.field NewSettings) ∧
      Control.bandwidth.handler Strconv.sample (.conn 3 true) (Request.withValue "42")
          (World.start NewSettings (fun _ => F64.fin 0)) =
        Fprintf (.conn 3 true) Control.bandwidth.message (.int 42)
          { World.start NewSettings (fun _ => F64.fin 0) with s := s1 } :=
  have h := control_parse_ok Strconv.sample .bandwidth (.conn 3 true) (Request.withValue "42")
    (World.start NewSettings (fun _ => F64.fin 0)) (.int 42)
    (by simp [Control.parse, Strconv.sample, Request.withValue, Except.map])
  h.imp fun _ hs => ⟨hs.1, hs.2.1, hs.2.2.1⟩

/-! ## The latency stage -/

/-- C5 fails for large delays: with `delay = 9223372037` seconds, an `int64` the
settings can hold, the latency stage calls `time.Sleep` with
`time.Duration(delay) * time.Second = -9223372036709551616` ns, which is less than
`delay` seconds, and then runs the next handler. -/
theorem latencyMiddleware_sleep_wraps :
    (0 : Int) ≤ 9223372037 ∧ (9223372037 : Int) ≤ MaxInt64 ∧
    latencyMiddleware .sDelay (fun _ _ τ => .ret τ) (.conn 7 true) Request.empty
        (World.start { NewSettings with delay := 9223372037 } (fun _ => F64.fin 0)) =
      .ret { s := { NewSettings with delay := 9223372037 }, limits := [], allocs := [],
             rand := fun _ => F64.fin 0, randPos := 0,
             trace := [.sleep (-9223372036709551616)] } ∧
    ¬ ((9223372037 : Int) * 1000000000 ≤ -9223372036709551616) := by
  refine ⟨by decide, by decide, ?_, by decide⟩
  have h : mulDuration 9223372037 Second = -9223372036709551616 := by decide
  simp [latencyMiddleware_eq, World.start, NewSettings, Int64Ptr.load, h]

/-- C5, amended: for a delay `0 ≤ delay ≤ MaxInt64` in the settings, the latency
stage calls `time.Sleep` once, with `time.Duration(delay) * time.Second`, before it
runs the next handler; for `delay ≤ 9223372036` that duration is exactly
`delay * 10^9` ns, and these are the only delays for which the duration reaches
`delay` seconds. -/
theorem latencyMiddleware_sleep (next : Handler) (w : ResponseWriter) (r : Request)
    (σ : World) (h0 : 0 ≤ σ.s.delay) (h1 : σ.s.delay ≤ MaxInt64) :
    latencyMiddleware .sDelay next w r σ =
      next w r { σ with trace := σ.trace ++ [.sleep (mulDuration σ.s.delay Second)] } ∧
    (σ.s.delay ≤ 9223372036 →
      latencyMiddleware .sDelay next w r σ =
        next w r { σ with trace := σ.trace ++ [.sleep (σ.s.delay * 1000000000)] }) ∧
    (σ.s.delay * 1000000000 ≤ mulDuration σ.s.delay Second ↔ σ.s.delay ≤ 9223372036) := by
  refine ⟨rfl, fun h2 => ?_, mulDuration_second_reaches _ h0 h1⟩
  rw [latencyMiddleware_eq, Int64Ptr.load, mulDuration_second_exact _ (by omega) h2]

/-- C5 amended, at a concrete input: a delay of 10 seconds in front of a handler
that returns at once. -/
theorem latencyMiddleware_sleep_witness :
    latencyMiddleware .sDelay (fun _ _ τ => .ret τ) (.conn 7 true) Request.empty
        (World.start { NewSettings with delay := 10 } (fun _ => F64.fin 0)) =
      .ret { World.start { NewSettings with delay := 10 } (fun _ => F64.fin 0) with
             trace := [] ++ [.sleep ((10 : Int) * 1000000000)] } :=
  (latencyMiddleware_sleep (fun _ _ τ => .ret τ) (.conn 7 true) Request.empty
    (World.start { NewSettings with delay := 10 } (fun _ => F64.fin 0))
    (by decide) (by decide)).2.1 (by decide)

/-! ## The throttled writer -/

theorem flushWriter_limits (rw : ResponseWriter) (σ : World) :
    (flushWriter rw σ).world.limits = σ.limits := by
  unfold flushWriter
  split <;> rfl

/-- What `Write` does to the limiter of a writer over a connection, through the
interface: the cap the struct was created with is compared with the current one,
and the limiter is set to the current cap exactly when the two differ. -/
theorem slowWriter_Write_limits (id : Nat) (f : Bool) (fw : Nat) (rxbw : Int64Ptr) (bw : Int)
    (p : Payload) (σ : World) :
    ((ResponseWriter.slow (.conn id f) fw rxbw bw).Write p σ).world.limits =
      if bw ≠ rxbw.load σ.s then σ.limits.set fw (rxbw.load σ.s) else σ.limits := by
  simp only [ResponseWriter.Write, slowResponseWriter.Write, flowrateWrite]
  split <;> split <;>
    simp [Outcome.andThen, flushWriter_limits, flowrateSetLimit, World.emit]

/-- A throttled writer around a throttled writer: the outer limiter passes the byte
to the inner writer, which writes to and flushes the connection; the outer flush
then panics, because a `slowResponseWriter` is not an `http.Flusher`. -/
theorem nested_slowWriter_Write :
    (ResponseWriter.slow (.slow (.conn 7 true) 0 .sBandwidth 100) 1 .sBandwidth 100).Write
        (.raw [1])
        { World.start { NewSettings with bandwidth := 100 } (fun _ => F64.fin 0) with
            limits := [100, 100] } =
      .panic { World.start { NewSettings with bandwidth := 100 } (fun _ => F64.fin 0) with
                 limits := [100, 100],
                 trace := [.limitedWrite 1 100 (.raw [1]), .limitedWrite 0 100 (.raw [1]),
                           .connWrite 7 (.raw [1]), .flush 7] } := by
  rfl

/-- C4, at the failing input: a writer is created under cap 100; the cap becomes
200 and a write follows (the limiter is set to 200); the cap goes back to 100 and
a second write follows.  The copy of the struct held by the interface still has
`bw = 100`, so the second `Write` sees no difference, does not call `SetLimit`,
and hands the bytes to a limiter whose limit is 200 while the settings say 100. -/
theorem slowWriter_stale_limit :
    (runStream (newSlowResponseWriter (.conn 7 true) .sBandwidth
          (World.start { NewSettings with bandwidth := 100 } (fun _ => F64.fin 0))).1.toWriter
        [.setCap 200, .write (.raw [1]), .setCap 100, .write (.raw [2])]
        (newSlowResponseWriter (.conn 7 true) .sBandwidth
          (World.start { NewSettings with bandwidth := 100 } (fun _ => F64.fin 0))).2).world.trace =
      [.newWriter 0 (.conn 7 true) 100,
       .setLimit 0 200, .logPrintln "adjusted writer bw to " 200,
       .limitedWrite 0 200 (.raw [1]), .connWrite 7 (.raw [1]), .flush 7,
       .limitedWrite 0 200 (.raw [2]), .connWrite 7 (.raw [2]), .flush 7] ∧
    (runStream (newSlowResponseWriter (.conn 7 true) .sBandwidth
          (World.start { NewSettings with bandwidth := 100 } (fun _ => F64.fin 0))).1.toWriter
        [.setCap 200, .write (.raw [1]), .setCap 100, .write (.raw [2])]
        (newSlowResponseWriter (.conn 7 true) .sBandwidth
          (World.start { NewSettings with bandwidth := 100 } (fun _ => F64.fin 0))).2).world.s.bandwidth =
      100 := by
  constructor <;> rfl

/-! ## The allocation pool -/

theorem wrapInt64_of_range (x : Int) (h0 : -(2 ^ 63) ≤ x) (h1 : x < 2 ^ 63) :
    wrapInt64 x = x := by
  unfold wrapInt64
  norm_num at *
  omega

theorem touchLoop_done (pageSize bytes : Int) (hps : 0 < pageSize)
    (hfit : bytes + pageSize ≤ 2 ^ 63) :
    ∀ (fuel : Nat) (i : Int) (bs : List UInt8), 0 ≤ i → (bs.length : Int) = bytes →
      (bytes - i).toNat < fuel →
      ∃ bs1, touchLoop pageSize bytes fuel i bs = .done bs1 ∧ bs1.length = bs.length := by
  intro fuel
  induction fuel with
  | zero => intro i bs _ _ h; omega
  | succ k ih =>
    intro i bs hi hlen hfuel
    unfold touchLoop
    by_cases hlt : i < bytes
    · have hin : 0 ≤ i ∧ i < (bs.length : Int) := ⟨hi, by omega⟩
      rw [if_pos hlt, if_pos hin]
      have hw : wrapInt64 (i + pageSize) = i + pageSize := by
        apply wrapInt64_of_range <;> norm_num at * <;> omega
      rw [hw]
      obtain ⟨bs1, h1, h2⟩ := ih (i + pageSize) (bs.set i.toNat 69) (by omega)
        (by simpa using hlen) (by omega)
      exact ⟨bs1, h1, by simpa using h2⟩
    · rw [if_neg hlt]
      exact ⟨bs, rfl, rfl⟩

theorem allocAndTouch_ok (maxAlloc pageSize bytes : Int) (σ : World) (hps : 0 < pageSize)
    (hmax : maxAlloc + pageSize ≤ 2 ^ 63) (h0 : 0 ≤ bytes) (h1 : bytes ≤ maxAlloc) :
    ∃ bs : List UInt8, (bs.length : Int) = bytes ∧
      allocAndTouch maxAlloc pageSize bytes σ = .ret { σ with allocs := σ.allocs ++ [bs] } := by
  have hmk : makeBytes maxAlloc bytes = some (List.replicate bytes.toNat 0) := by
    unfold makeBytes
    rw [if_neg (by omega)]
  obtain ⟨bs1, hrun, hlen⟩ := touchLoop_done pageSize bytes hps (by omega) (bytes.toNat + 1) 0
    (List.replicate bytes.toNat 0) le_rfl (by simp; omega) (by omega)
  refine ⟨bs1, ?_, ?_⟩
  · rw [hlen]; simp; omega
  · simp [allocAndTouch, hmk, hrun]

theorem touchLoop_wraps (bytes : Int) (hlo : 2 ^ 63 - 4096 < bytes) (hhi : bytes < 2 ^ 63) :
    ∀ (fuel : Nat) (i : Int) (bs : List UInt8), 0 ≤ i → i < bytes → (4096 : Int) ∣ i →
      (bs.length : Int) = bytes → (bytes - i).toNat < fuel →
      touchLoop 4096 bytes fuel i bs = .indexPanic := by
  intro fuel
  induction fuel with
  | zero => intro i bs _ _ _ _ h; omega
  | succ k ih =>
    intro i bs hi hlt hdvd hlen hfuel
    have hin : 0 ≤ i ∧ i < (bs.length : Int) := ⟨hi, by omega⟩
    unfold touchLoop
    rw [if_pos hlt, if_pos hin]
    by_cases hw : i + 4096 < 2 ^ 63
    · have hnext : wrapInt64 (i + 4096) = i + 4096 := by
        apply wrapInt64_of_range <;> norm_num at * <;> omega
      rw [hnext]
      refine ih (i + 4096) _ (by omega) ?_ ?_ (by simpa using hlen) (by omega)
      · norm_num at *; omega
      · exact Int.dvd_add hdvd (Int.dvd_refl _)
    · have hnext : wrapInt64 (i + 4096) < 0 := by
        unfold wrapInt64
        norm_num at *
        omega
      obtain ⟨j, rfl⟩ : ∃ j, k = j + 1 := ⟨k - 1, by omega⟩
      unfold touchLoop
      rw [if_pos (by omega), if_neg (by omega)]

/-- Whatever the runtime's allocation limit, with 4096-byte pages a call
`allocAndTouch(bytes)` with `bytes` in the last page below `2^63` (such as
`math.MaxInt64`) panics: in `make` when the limit is smaller, and otherwise when
the loop index wraps around and indexes the slice at a negative position. -/
theorem allocAndTouch_last_page (maxAlloc bytes : Int) (σ : World)
    (hlo : 2 ^ 63 - 4096 < bytes) (hhi : bytes < 2 ^ 63) :
    allocAndTouch maxAlloc 4096 bytes σ = .panic σ := by
  have hpos : 0 < bytes := by norm_num at hlo; omega
  by_cases h : maxAlloc < bytes
  · simp [allocAndTouch, makeBytes, h]
  · have hmk : makeBytes maxAlloc bytes = some (List.replicate bytes.toNat 0) := by
      unfold makeBytes
      rw [if_neg (by omega)]
    have hrun := touchLoop_wraps bytes hlo hhi (bytes.toNat + 1) 0
      (List.replicate bytes.toNat 0) le_rfl hpos (Int.dvd_zero _)
      (by rw [List.length_replicate]; exact Int.toNat_of_nonneg hpos.le) (by omega)
    simp only [allocAndTouch, hmk, hrun]

/-- C9 fails for sizes the runtime refuses: on a machine with `maxAlloc = 2^48` and
4096-byte pages, `allocAndTouch(9223372036854775807)` panics in `make` and the pool
stays empty instead of gaining a block of that length. -/
theorem allocAndTouch_too_large :
    (0 : Int) ≤ 9223372036854775807 ∧
    allocAll (2 ^ 48) 4096 [9223372036854775807] (World.start NewSettings (fun _ => F64.fin 0)) =
      .panic (World.start NewSettings (fun _ => F64.fin 0)) ∧
    (allocAll (2 ^ 48) 4096 [9223372036854775807]
      (World.start NewSettings (fun _ => F64.fin 0))).world.allocs = [] := by
  refine ⟨by decide, ?_, ?_⟩ <;>
    simp [allocAll, allocAndTouch, makeBytes, Outcome.andThen, Outcome.world, World.start]

/-- C9, amended: with a positive page size and sizes `0 ≤ si ≤ maxAlloc` (the
runtime's allocation limit, itself at least a page below `2^63`), the calls
`allocAndTouch(s1)`, ..., `allocAndTouch(sn)` all return, nothing but the pool
changes, and the pool is the initial pool followed by `n` blocks of lengths
`s1, ..., sn` in that order; so its total length grows by the sum of the `si`. -/
theorem allocAll_appends (maxAlloc pageSize : Int) (sizes : List Int) (σ : World)
    (hps : 0 < pageSize) (hmax : maxAlloc + pageSize ≤ 2 ^ 63)
    (hsizes : ∀ b ∈ sizes, 0 ≤ b ∧ b ≤ maxAlloc) :
    ∃ blocks : List (List UInt8),
      blocks.map (fun bs => (bs.length : Int)) = sizes ∧
      allocAll maxAlloc pageSize sizes σ = .ret { σ with allocs := σ.allocs ++ blocks } ∧
      (((allocAll maxAlloc pageSize sizes σ).world.allocs.map
          (fun bs => (bs.length : Int))).sum =
        (σ.allocs.map (fun bs => (bs.length : Int))).sum + sizes.sum) := by
  have key : ∃ blocks : List (List UInt8),
      blocks.map (fun bs => (bs.length : Int)) = sizes ∧
      allocAll maxAlloc pageSize sizes σ = .ret { σ with allocs := σ.allocs ++ blocks } := by
    induction sizes generalizing σ with
    | nil => exact ⟨[], rfl, by simp [allocAll]⟩
    | cons b rest ih =>
      obtain ⟨hb0, hb1⟩ := hsizes b (List.mem_cons_self _ _)
      obtain ⟨bs, hlen, hrun⟩ := allocAndTouch_ok maxAlloc pageSize b σ hps hmax hb0 hb1
      obtain ⟨blocks, hmap, hrest⟩ := ih { σ with allocs := σ.allocs ++ [bs] }
        (fun x hx => hsizes x (List.mem_cons_of_mem _ hx))
      refine ⟨bs :: blocks, by simp [hlen, hmap], ?_⟩
      rw [allocAll, hrun, Outcome.andThen, hrest]
      simp
  obtain ⟨blocks, hmap, hrun⟩ := key
  refine ⟨blocks, hmap, hrun, ?_⟩
  rw [hrun]
  simp [Outcome.world, hmap]

/-- C9 amended, at a concrete input: blocks of 0, 3 and 5000 bytes after one
existing block. -/
theorem allocAll_appends_witness :
    ∃ blocks : List (List UInt8),
      blocks.map (fun bs => (bs.length : Int)) = [0, 3, 5000] ∧
      allocAll (2 ^ 48) 4096 [0, 3, 5000]
          { World.start NewSettings (fun _ => F64.fin 0) with allocs := [[69, 0]] } =
        .ret { World.start NewSettings (fun _ => F64.fin 0) with
                 allocs := [[69, 0]] ++ blocks } :=
  have h := allocAll_appends (2 ^ 48) 4096 [0, 3, 5000]
    { World.start NewSettings (fun _ => F64.fin 0) with allocs := [[69, 0]] }
    (by decide) (by decide) (by decide)
  h.imp fun _ hs => ⟨hs.1, hs.2.1⟩

/-! ## Rounding to `float64` and the duty cycle -/

namespace F64

theorem roundHalfEven_le {x : ℚ} {N : ℤ} (h : x ≤ N) : roundHalfEven x ≤ N := by
  have hf : ⌊x⌋ ≤ N := by
    have := Int.floor_le x
    exact_mod_cast this.trans h
  unfold roundHalfEven
  simp only []
  have hstep : ¬ (x - ⌊x⌋ < 1 / 2) → ⌊x⌋ + 1 ≤ N := by
    intro hx
    have h1 : ((⌊x⌋ : ℤ) : ℚ) < N := by
      have : (⌊x⌋ : ℚ) + 1 / 2 ≤ x := by linarith [not_lt.mp hx]
      linarith
    have : ⌊x⌋ < N := by exact_mod_cast h1
    omega
  split_ifs with h1 h2 h3
  · exact hf
  · exact hstep h1
  · exact hf
  · exact hstep h1

theorem le_roundHalfEven {x : ℚ} {N : ℤ} (h : (N : ℚ) ≤ x) : N ≤ roundHalfEven x := by
  have hf : N ≤ ⌊x⌋ := Int.le_floor.mpr h
  unfold roundHalfEven
  simp only []
  split_ifs <;> omega

theorem two_zpow_pos (e : ℤ) : (0 : ℚ) < 2 ^ e := zpow_pos (by norm_num) e

theorem roundHalfEven_near (x : ℚ) : |(roundHalfEven x : ℚ) - x| ≤ 1 / 2 := by
  have h1 := Int.floor_le x
  have h2 := Int.lt_floor_add_one x
  unfold roundHalfEven
  simp only []
  rw [abs_le]
  split_ifs with ha hb hc <;> push_cast <;> constructor <;> linarith

/-- The rounded value is within half a spacing of the exact one. -/
theorem roundQ_near (q : ℚ) : |roundQ q - q| ≤ 2 ^ quantum q / 2 := by
  have hp := two_zpow_pos (quantum q)
  have h := roundHalfEven_near (q / 2 ^ quantum q)
  have e : roundQ q - q =
      ((roundHalfEven (q / 2 ^ quantum q) : ℚ) - q / 2 ^ quantum q) * 2 ^ quantum q := by
    unfold roundQ
    field_simp
  rw [e, abs_mul, abs_of_pos hp]
  calc |(roundHalfEven (q / 2 ^ quantum q) : ℚ) - q / 2 ^ quantum q| * 2 ^ quantum q
      ≤ 1 / 2 * 2 ^ quantum q := mul_le_mul_of_nonneg_right h hp.le
    _ = 2 ^ quantum q / 2 := by ring

theorem roundQ_le {q : ℚ} {N : ℤ} (h : q ≤ N * 2 ^ quantum q) :
    roundQ q ≤ N * 2 ^ quantum q := by
  have hp := two_zpow_pos (quantum q)
  have h1 : q / 2 ^ quantum q ≤ N := (div_le_iff₀ hp).mpr h
  have h2 : ((roundHalfEven (q / 2 ^ quantum q) : ℤ) : ℚ) ≤ N := by
    exact_mod_cast roundHalfEven_le h1
  exact mul_le_mul_of_nonneg_right h2 hp.le

theorem le_roundQ {q : ℚ} {N : ℤ} (h : (N : ℚ) * 2 ^ quantum q ≤ q) :
    (N : ℚ) * 2 ^ quantum q ≤ roundQ q := by
  have hp := two_zpow_pos (quantum q)
  have h1 : (N : ℚ) ≤ q / 2 ^ quantum q := (le_div_iff₀ hp).mpr h
  have h2 : (N : ℚ) ≤ ((roundHalfEven (q / 2 ^ quantum q) : ℤ) : ℚ) := by
    exact_mod_cast le_roundHalfEven h1
  exact mul_le_mul_of_nonneg_right h2 hp.le

/-- A value `m * 2^k` lies on the grid of every finer spacing. -/
theorem grid_eq (m : ℤ) (k e : ℤ) (h : e ≤ k) :
    ((m * 2 ^ (k - e).toNat : ℤ) : ℚ) * 2 ^ e = m * 2 ^ k := by
  have hk : ((k - e).toNat : ℤ) = k - e := Int.toNat_of_nonneg (by omega)
  push_cast
  rw [mul_assoc, ← zpow_natCast, hk, ← zpow_add₀ (by norm_num : (2 : ℚ) ≠ 0)]
  congr 2
  omega

theorem roundQ_le_grid {q : ℚ} (m k : ℤ) (hk : quantum q ≤ k) (h : q ≤ m * 2 ^ k) :
    roundQ q ≤ m * 2 ^ k := by
  rw [← grid_eq m k (quantum q) hk] at h ⊢
  exact roundQ_le h

theorem le_roundQ_grid {q : ℚ} (m k : ℤ) (hk : quantum q ≤ k) (h : (m : ℚ) * 2 ^ k ≤ q) :
    (m : ℚ) * 2 ^ k ≤ roundQ q := by
  rw [← grid_eq m k (quantum q) hk] at h ⊢
  exact le_roundQ h

theorem log_abs_le {q : ℚ} {k : ℤ} (hk : 0 ≤ k) (h : |q| < 2 ^ (k + 1)) :
    Int.log 2 |q| ≤ k := by
  rcases eq_or_lt_of_le (abs_nonneg q) with h0 | h0
  · rw [← h0]; simpa using hk
  · have := (Int.lt_zpow_iff_log_lt (b := 2) (by norm_num) h0 (x := k + 1)).mp
      (by simpa using h)
    omega

theorem quantum_le {q : ℚ} {k : ℤ} (hk : 0 ≤ k) (h : |q| < 2 ^ (k + 1)) :
    quantum q ≤ k - 52 := by
  have := log_abs_le hk h
  unfold quantum
  omega


theorem roundQ_nonneg {q : ℚ} (h : 0 ≤ q) : 0 ≤ roundQ q := by
  have := le_roundQ (q := q) (N := 0) (by simpa using h)
  simpa using this

theorem roundQ_le_one {q : ℚ} (h0 : 0 ≤ q) (h1 : q ≤ 1) : roundQ q ≤ 1 := by
  have hq : quantum q ≤ 0 := by
    have := quantum_le (q := q) (k := 0) le_rfl (by rw [abs_of_nonneg h0]; norm_num; linarith)
    omega
  have := roundQ_le_grid 1 0 hq (by simpa using h1)
  simpa using this

theorem roundQ_le_thousand {q : ℚ} (h0 : 0 ≤ q) (h1 : q ≤ 1000) : roundQ q ≤ 1000 := by
  have hq : quantum q ≤ 0 := by
    have := quantum_le (q := q) (k := 9) (by norm_num)
      (by rw [abs_of_nonneg h0]; norm_num; linarith)
    omega
  have := roundQ_le_grid 1000 0 hq (by simpa using h1)
  simpa using this

theorem roundQ_intCast (n : ℤ) (h : |n| < 2 ^ 53) : roundQ (n : ℚ) = n := by
  have hq : quantum (n : ℚ) ≤ 0 := by
    have habs : |(n : ℚ)| < 2 ^ ((52 : ℤ) + 1) := by
      have h3 : |(n : ℚ)| < 2 ^ (53 : ℕ) := by exact_mod_cast h
      have e : (2 : ℚ) ^ ((52 : ℤ) + 1) = 2 ^ (53 : ℕ) := by norm_num
      rw [e]; exact h3
    have := quantum_le (q := (n : ℚ)) (k := 52) (by norm_num) habs
    omega
  have h1 := roundQ_le_grid (q := (n : ℚ)) n 0 hq (by simp)
  have h2 := le_roundQ_grid (q := (n : ℚ)) n 0 hq (by simp)
  simp only [zpow_zero, mul_one] at h1 h2
  exact le_antisymm h1 h2

theorem roundQ_zero : roundQ 0 = 0 := by
  have := roundQ_intCast 0 (by norm_num)
  simpa using this

theorem roundQ_one : roundQ 1 = 1 := by
  have := roundQ_intCast 1 (by norm_num)
  simpa using this

theorem roundQ_numCPU (n : ℤ) (h1 : 1 ≤ n) (h2 : n ≤ MaxInt64) :
    1 ≤ roundQ (n : ℚ) ∧ roundQ (n : ℚ) ≤ 2 ^ 63 := by
  have hn0 : (0 : ℚ) < n := by exact_mod_cast (by omega : (0 : ℤ) < n)
  have hn1 : (1 : ℚ) ≤ n := by exact_mod_cast h1
  have habs : |(n : ℚ)| = n := abs_of_pos hn0
  have hlt : (n : ℚ) < 2 ^ 63 := by
    have : n < 2 ^ 63 := by unfold MaxInt64 at h2; omega
    exact_mod_cast this
  have hlog0 : 0 ≤ Int.log 2 (n : ℚ) := by
    have := (Int.zpow_le_iff_le_log (b := 2) (by norm_num) hn0 (x := 0)).mp (by simpa using hn1)
    exact this
  constructor
  · have hq : quantum (n : ℚ) ≤ Int.log 2 (n : ℚ) := by
      unfold quantum
      rw [habs]
      omega
    have hle : ((1 : ℤ) : ℚ) * 2 ^ Int.log 2 (n : ℚ) ≤ n := by
      have := Int.zpow_log_le_self (b := 2) (by norm_num) hn0
      simpa using this
    have := le_roundQ_grid (q := (n : ℚ)) 1 (Int.log 2 (n : ℚ)) hq hle
    have h2pow : (1 : ℚ) ≤ 2 ^ Int.log 2 (n : ℚ) := one_le_zpow₀ (by norm_num) hlog0
    simp only [Int.cast_one, one_mul] at this
    linarith
  · have hq : quantum (n : ℚ) ≤ 63 := by
      have := quantum_le (q := (n : ℚ)) (k := 62) (by norm_num)
        (by rw [habs]; norm_num; exact hlt)
      omega
    have e : (2 : ℚ) ^ (63 : ℤ) = 2 ^ (63 : ℕ) := by norm_num
    have := roundQ_le_grid (q := (n : ℚ)) 1 63 hq (by rw [e]; simpa using hlt.le)
    rw [e] at this
    simpa using this

theorem round_false_eq {q : ℚ} (h : |roundQ q| < 2 ^ 1024) :
    round false q = fin (roundQ q) := by
  unfold round
  rw [if_neg (not_le.mpr h)]
  by_cases h0 : roundQ q = 0 <;> simp [h0]

theorem round_true_zero : round true 0 = nzero := by
  unfold round
  rw [roundQ_zero]
  norm_num

theorem round_false_small {q : ℚ} {c : ℚ} (h0 : 0 ≤ q) (hc : roundQ q ≤ c)
    (hc2 : c < 2 ^ 1024) : round false q = fin (roundQ q) := by
  apply round_false_eq
  rw [abs_of_nonneg (roundQ_nonneg h0)]
  exact lt_of_le_of_lt hc hc2

theorem ofInt_numCPU (n : ℤ) (h1 : 1 ≤ n) (h2 : n ≤ MaxInt64) :
    ∃ c : ℚ, ofInt n = fin c ∧ 1 ≤ c ∧ c ≤ 2 ^ 63 ∧ (n < 2 ^ 53 → c = n) := by
  obtain ⟨hlo, hhi⟩ := roundQ_numCPU n h1 h2
  refine ⟨roundQ (n : ℚ), ?_, hlo, hhi, ?_⟩
  · unfold ofInt
    have : decide (n < 0) = false := by simp; omega
    rw [this]
    exact round_false_small (by exact_mod_cast (by omega : (0 : ℤ) ≤ n)) hhi (by norm_num)
  · intro h
    exact roundQ_intCast n (by rw [abs_of_nonneg (by omega)]; exact h)

end F64

theorem useCpu.dutyCycle_fin (q : ℚ) (numCPU : Int) (c : ℚ) (hc : F64.ofInt numCPU = F64.fin c)
    (hc1 : 1 ≤ c) (hq0 : 0 ≤ q) :
    useCpu.dutyCycle (F64.fin q) numCPU = F64.round false (min q c / c) := by
  have hc0 : c ≠ 0 := by linarith
  have hcneg : ¬ c < 0 := by linarith
  have hqneg : ¬ q < 0 := by linarith
  unfold useCpu.dutyCycle
  simp only [hc]
  by_cases hlt : q < c
  · simp [F64.min, F64.lt, F64.isZero, F64.div, F64.signbit, F64.isInf, F64.toRat, hc0,
      hcneg, hlt, hqneg, min_eq_left hlt.le]
  · simp [F64.min, F64.lt, F64.isZero, F64.div, F64.signbit, F64.isInf, F64.toRat, hc0,
      hcneg, hlt, min_eq_right (not_lt.mp hlt)]

theorem useCpu.dutyCycle_cases (rate : F64) (numCPU : Int)
    (hrate : F64.le (F64.fin 0) rate = true) (h1 : 1 ≤ numCPU) (h2 : numCPU ≤ MaxInt64) :
    useCpu.dutyCycle rate numCPU = F64.nzero ∨
    ∃ d : ℚ, useCpu.dutyCycle rate numCPU = F64.fin d ∧ 0 ≤ d ∧ d ≤ 1 := by
  obtain ⟨c, hc, hc1, hc2, -⟩ := F64.ofInt_numCPU numCPU h1 h2
  have hc0 : c ≠ 0 := by linarith
  have hcneg : ¬ c < 0 := by linarith
  cases rate with
  | nan => simp [F64.le] at hrate
  | ninf => simp [F64.le] at hrate
  | pinf =>
    right
    refine ⟨1, ?_, by norm_num, le_rfl⟩
    unfold useCpu.dutyCycle
    simp only [hc]
    simp [F64.min, F64.lt, F64.isZero, F64.div, F64.signbit, F64.isInf, F64.toRat, hc0, hcneg]
    rw [F64.round_false_small (c := 1) (by norm_num) (by rw [F64.roundQ_one]) (by norm_num),
      F64.roundQ_one]
  | nzero =>
    left
    unfold useCpu.dutyCycle
    simp only [hc]
    simp [F64.min, F64.lt, F64.isZero, F64.div, F64.signbit, F64.isInf, F64.toRat, hc0, hcneg]
    have : (0 : ℚ) < c := by linarith
    simp [this, hc0, hcneg, F64.round_true_zero]
  | fin q =>
    right
    have hq0 : 0 ≤ q := by simpa [F64.le, F64.toRat] using hrate
    have hquot0 : 0 ≤ min q c / c := div_nonneg (le_min hq0 (by linarith)) (by linarith)
    have hquot1 : min q c / c ≤ 1 := (div_le_one (by linarith)).mpr (min_le_right _ _)
    refine ⟨F64.roundQ (min q c / c), ?_, F64.roundQ_nonneg hquot0,
      F64.roundQ_le_one hquot0 hquot1⟩
    rw [useCpu.dutyCycle_fin q numCPU c hc hc1 hq0]
    exact F64.round_false_small hquot0 (F64.roundQ_le_one hquot0 hquot1) (by norm_num)

theorem useCpu.highTimer_of_duty (rate : F64) (numCPU : Int)
    (h : useCpu.dutyCycle rate numCPU = F64.nzero ∨
      ∃ d : ℚ, useCpu.dutyCycle rate numCPU = F64.fin d ∧ 0 ≤ d ∧ d ≤ 1) :
    0 ≤ useCpu.highTimer rate numCPU ∧ useCpu.highTimer rate numCPU ≤ 1000 * Millisecond := by
  unfold useCpu.highTimer
  rcases h with h | ⟨d, h, hd0, hd1⟩
  · rw [h]
    have : F64.mul F64.nzero (F64.fin 1000) = F64.nzero := by
      have h1000 : ¬ ((1000 : ℚ) < 0) := by norm_num
      simp [F64.mul, F64.signbit, F64.isInf, F64.isZero, F64.toRat, F64.round_true_zero,
        h1000]
    rw [this]
    simp [F64.toInt64, mulDuration, wrapInt64, Millisecond]
  · rw [h]
    have hp0 : 0 ≤ d * 1000 := by linarith
    have hp1 : d * 1000 ≤ 1000 := by linarith
    have hr0 := F64.roundQ_nonneg hp0
    have hr1 := F64.roundQ_le_thousand hp0 hp1
    have hdneg : ¬ d < 0 := by linarith
    have hmul : F64.mul (F64.fin d) (F64.fin 1000) = F64.fin (F64.roundQ (d * 1000)) := by
      simp [F64.mul, F64.signbit, F64.isInf, F64.isZero, F64.toRat, hdneg]
      exact F64.round_false_small hp0 hr1 (by norm_num)
    rw [hmul]
    have ht0 : 0 ≤ ⌊F64.roundQ (d * 1000)⌋ := Int.floor_nonneg.mpr hr0
    have ht1 : ⌊F64.roundQ (d * 1000)⌋ ≤ 1000 := by
      have := (Int.floor_le (F64.roundQ (d * 1000))).trans hr1
      exact_mod_cast this
    simp only [F64.toInt64, if_pos hr0, MinInt64, MaxInt64]
    rw [if_pos (by constructor <;> omega)]
    simp only [mulDuration, Millisecond]
    rw [wrapInt64_of_range _ (by norm_num; omega) (by norm_num; omega)]
    constructor <;> omega

/-- C10: for a CPU target `rate ≥ 0` (any non-negative `float64`, `+Inf` included)
and `numCPU ≥ 1` processing units, the duty cycle a `useCpu` worker computes is the
`float64` quotient `math.Min(rate, cpus) / cpus` — for a finite target and a unit
count below `2^53` this is the correctly rounded value of `min(rate, numCPU) / numCPU`
— it lies in `[0, 1]`, and the high-phase duration
`time.Duration(dutyCycle*1000) * time.Millisecond` lies between 0 and the 1000 ms
period, also when the target exceeds the unit count. -/
theorem useCpu_dutyCycle_bounded (rate : F64) (numCPU : Int)
    (hrate : F64.le (F64.fin 0) rate = true) (h1 : 1 ≤ numCPU) (h2 : numCPU ≤ MaxInt64) :
    useCpu.dutyCycle rate numCPU =
      F64.div (F64.min rate (F64.ofInt numCPU)) (F64.ofInt numCPU) ∧
    (∀ q : ℚ, rate = F64.fin q → numCPU < 2 ^ 53 →
      useCpu.dutyCycle rate numCPU = F64.round false (min q numCPU / numCPU)) ∧
    F64.le (F64.fin 0) (useCpu.dutyCycle rate numCPU) = true ∧
    F64.le (useCpu.dutyCycle rate numCPU) (F64.fin 1) = true ∧
    0 ≤ useCpu.highTimer rate numCPU ∧
    useCpu.highTimer rate numCPU ≤ 1000 * Millisecond := by
  have hcases := useCpu.dutyCycle_cases rate numCPU hrate h1 h2
  refine ⟨rfl, ?_, ?_, ?_, useCpu.highTimer_of_duty rate numCPU hcases⟩
  · rintro q rfl hsmall
    obtain ⟨c, hc, hc1, -, hexact⟩ := F64.ofInt_numCPU numCPU h1 h2
    have hq0 : 0 ≤ q := by simpa [F64.le, F64.toRat] using hrate
    rw [useCpu.dutyCycle_fin q numCPU c hc hc1 hq0, hexact hsmall]
  · rcases hcases with h | ⟨d, h, hd0, hd1⟩
    · rw [h]; simp [F64.le, F64.toRat]
    · rw [h]; simpa [F64.le, F64.toRat] using hd0
  · rcases hcases with h | ⟨d, h, hd0, hd1⟩
    · rw [h]; simp [F64.le, F64.toRat]
    · rw [h]; simpa [F64.le, F64.toRat] using hd1

/-- C10, at a concrete input: a target of 40 CPUs on a machine with 16. -/
theorem useCpu_dutyCycle_bounded_witness :
    F64.le (F64.fin 0) (useCpu.dutyCycle (F64.fin 40) 16) = true ∧
    F64.le (useCpu.dutyCycle (F64.fin 40) 16) (F64.fin 1) = true ∧
    0 ≤ useCpu.highTimer (F64.fin 40) 16 ∧
    useCpu.highTimer (F64.fin 40) 16 ≤ 1000 * Millisecond :=
  (useCpu_dutyCycle_bounded (F64.fin 40) 16 (by simp [F64.le, F64.toRat]) (by decide)
    (by decide)).2.2

end Envbin
